import Mathlib

/-!
Shallow embedding of `generate-attendance-reports.py`: a script that reads
Zoom "participants" CSV rows, aggregates attendance by (resolved email key,
calendar date), and emits three report tables plus low-attendance warnings.

The embedding follows the source closely:
  * `Date`, `toOrdinal`, `isocalendar`, `dateFromIsoweek` mirror the pieces of
    Python's `datetime` used by the script;
  * `parseTimestamp` mirrors `datetime.strptime(start, '%d/%m/%Y %H:%M:%S %p')`
    followed by `.date()`, `parseIntPy` mirrors `int(row[4])`;
  * `Store` is the script's `emails` dict-of-dicts, modelled as insertion-order
    association lists (mirroring Python dict iteration order);
  * `insertParsed`/`processRow`/`processFile`/`processDirectory`/`runAll`
    mirror the aggregation loop, file loop, per-directory run and the outer
    directory loop (an uncaught exception terminates the whole run);
  * `table1Body`, `table2Header`/`table2Body`, `table3Header`/`table3Body`,
    `warnedKeys` mirror the three report generators and the warning check.
-/

namespace AttRep

/-- Calendar date (year, month, day), mirroring Python `datetime.date`. -/
structure Date where
  year : Nat
  month : Nat
  day : Nat
deriving DecidableEq, Repr

/-- Gregorian leap-year test, as in Python's calendar arithmetic. -/
def isLeap (y : Nat) : Bool := y % 4 == 0 && (y % 100 != 0 || y % 400 == 0)

/-- Number of days in a month (month is 1-based). -/
def daysInMonth (y m : Nat) : Nat :=
  match m with
  | 1 => 31 | 2 => if isLeap y then 29 else 28 | 3 => 31 | 4 => 30 | 5 => 31 | 6 => 30
  | 7 => 31 | 8 => 31 | 9 => 30 | 10 => 31 | 11 => 30 | 12 => 31 | _ => 0

/-- Cumulative days before a month in a non-leap year. -/
def daysBeforeMonth (m : Nat) : Nat :=
  match m with
  | 1 => 0 | 2 => 31 | 3 => 59 | 4 => 90 | 5 => 120 | 6 => 151
  | 7 => 181 | 8 => 212 | 9 => 243 | 10 => 273 | 11 => 304 | 12 => 334 | _ => 0

/-- Proleptic Gregorian ordinal, with 0001-01-01 mapped to 1; this is Python's
`date.toordinal`. -/
def toOrdinal (d : Date) : Nat :=
  let y := d.year - 1
  365 * y + y / 4 + y / 400 - y / 100 + daysBeforeMonth d.month +
    (if 2 < d.month && isLeap d.year then 1 else 0) + d.day

/-- Ordinal of the Monday starting ISO week 1 of a year; this is
`datetime._isoweek1monday`. -/
def week1monday (y : Nat) : Nat :=
  let firstday := toOrdinal ⟨y, 1, 1⟩
  let firstweekday := (firstday + 6) % 7
  let w := firstday - firstweekday
  if 3 < firstweekday then w + 7 else w

/-- ISO calendar triple (ISO year, ISO week, ISO weekday) of a date; this is
Python's `date.isocalendar()`. -/
def isocalendar (d : Date) : Nat × Nat × Nat :=
  let today := toOrdinal d
  let w1 := week1monday d.year
  if today < w1 then
    let w1p := week1monday (d.year - 1)
    (d.year - 1, (today - w1p) / 7 + 1, (today - w1p) % 7 + 1)
  else if 52 ≤ (today - w1) / 7 && week1monday (d.year + 1) ≤ today then
    (d.year + 1, 1, (today - w1) % 7 + 1)
  else
    (d.year, (today - w1) / 7 + 1, (today - w1) % 7 + 1)

/-- ISO week number of a date (`date.isocalendar()[1]`). -/
def isoWeekNum (d : Date) : Nat := (isocalendar d).2.1

/-- ISO year of a date (`date.isocalendar()[0]`). -/
def isoYear (d : Date) : Nat := (isocalendar d).1

/-- Inverse of `toOrdinal` (Howard Hinnant's civil-from-days algorithm,
shifted to Python ordinals). -/
def fromOrdinal (n : Nat) : Date :=
  let z := n + 305
  let era := z / 146097
  let doe := z % 146097
  let yoe := ((doe - doe / 1460) + (doe / 36524 - doe / 146096)) / 365
  let y := yoe + era * 400
  let doy := doe - (365 * yoe + yoe / 4 - yoe / 100)
  let mp := (5 * doy + 2) / 153
  let dd := doy - (153 * mp + 2) / 5 + 1
  let mm := if mp < 10 then mp + 3 else mp - 9
  ⟨if mm ≤ 2 then y + 1 else y, mm, dd⟩

/-- Source `date_from_isoweek`: the date with the given ISO year, ISO week and
ISO weekday (computed via `strptime('%G %V %u')` in the source). -/
def dateFromIsoweek (isoY isoW isoD : Nat) : Date :=
  fromOrdinal (week1monday isoY + (isoW - 1) * 7 + (isoD - 1))

/-! Character and string utilities (kernel-reducible replacements for the
Python string operations the script uses). -/

/-- ASCII digit test. -/
def isDigitB (c : Char) : Bool := 48 ≤ c.toNat && c.toNat ≤ 57

/-- Python-style whitespace test (space, tab, newline, vertical tab, form
feed, carriage return). -/
def isSpaceB (c : Char) : Bool :=
  c.toNat == 32 || c.toNat == 9 || c.toNat == 10 || c.toNat == 11 || c.toNat == 12 || c.toNat == 13

/-- Strip leading and trailing whitespace, as Python's `str.strip()`. -/
def trimList (l : List Char) : List Char :=
  ((l.dropWhile isSpaceB).reverse.dropWhile isSpaceB).reverse

/-- Whether the first list is a prefix of the second (Boolean). -/
def isPrefixB : List Char → List Char → Bool
  | [], _ => true
  | _ :: _, [] => false
  | a :: as, b :: bs => a == b && isPrefixB as bs

/-- Whether `pat` occurs as a contiguous sublist of the second argument. -/
def subAux (pat : List Char) : List Char → Bool
  | [] => isPrefixB pat []
  | c :: t => isPrefixB pat (c :: t) || subAux pat t

/-- Python's `pat in s` substring test. -/
def containsSub (pat s : String) : Bool := subAux pat.data s.data

/-- Python's `s.endswith(pat)`. -/
def endsWithPy (s pat : String) : Bool := isPrefixB pat.data.reverse s.data.reverse

/-- Lowercase a string (ASCII, as the script's email data is ASCII);
mirrors `str.lower()`. -/
def lowerS (s : String) : String := ⟨s.data.map Char.toLower⟩

/-- Split a character list at every occurrence of a separator character. -/
def splitChar (sep : Char) : List Char → List (List Char)
  | [] => [[]]
  | c :: t =>
    let r := splitChar sep t
    if c == sep then [] :: r
    else
      match r with
      | [] => [[c]]
      | h :: rt => (c :: h) :: rt

/-- Split a string on a separator character, as Python `s.split(sep)` for the
single-character separators used here. -/
def splitOnCharS (sep : Char) (s : String) : List String :=
  (splitChar sep s.data).map String.mk

/-- Numeric value of a nonempty all-digit character list. -/
def digitsToNat? (l : List Char) : Option Nat :=
  if l.isEmpty then none
  else if l.all isDigitB then some (l.foldl (fun a c => a * 10 + (c.toNat - 48)) 0) else none

/-- Parse one strptime numeric field: one or two digits with value in
`[lo, hi]` (this is the shape of the `%d`, `%m`, `%H`, `%M`, `%S`
regular expressions in Python's `_strptime`). -/
def numField (s : String) (lo hi : Nat) : Option Nat :=
  match digitsToNat? s.data with
  | some v => if 1 ≤ s.data.length ∧ s.data.length ≤ 2 ∧ lo ≤ v ∧ v ≤ hi then some v else none
  | none => none

/-- Parse a strptime `%Y` field: exactly four digits; the year must then be
accepted by `datetime` (`MINYEAR = 1`). -/
def yearField (s : String) : Option Nat :=
  match digitsToNat? s.data with
  | some v => if s.data.length = 4 ∧ 1 ≤ v then some v else none
  | none => none

/-- Source line `datetime.datetime.strptime(start, '%d/%m/%Y %H:%M:%S %p')`
followed by `.date()`: returns the calendar date, or `none` when Python would
raise `ValueError`. The `%p` field is parsed (AM/PM, case-insensitive) but,
as with `%H` in Python, does not affect the result. -/
def parseTimestamp (s : String) : Option Date :=
  match splitOnCharS (Char.ofNat 32) s with
  | [dpart, tpart, ppart] =>
    match splitOnCharS (Char.ofNat 47) dpart with
    | [ds, ms, ys] =>
      match splitOnCharS (Char.ofNat 58) tpart with
      | [hs, mis, secs] =>
        match numField ds 1 31, numField ms 1 12, yearField ys,
              numField hs 0 23, numField mis 0 59, numField secs 0 59 with
        | some dv, some mv, some yv, some _, some _, some _ =>
          if (lowerS ppart = "am" ∨ lowerS ppart = "pm") ∧ dv ≤ daysInMonth yv mv then
            some ⟨yv, mv, dv⟩
          else none
        | _, _, _, _, _, _ => none
      | _ => none
    | _ => none
  | _ => none

/-- Source line `mins = int(row[4])`: Python `int()` on a string (strip
whitespace, optional sign, decimal digits), or `none` when Python would raise
`ValueError`. -/
def parseIntPy (s : String) : Option Int :=
  match trimList s.data with
  | [] => none
  | c :: rest =>
    if c == Char.ofNat 45 then (digitsToNat? rest).map (fun n => -(n : Int))
    else if c == Char.ofNat 43 then (digitsToNat? rest).map (fun n => (n : Int))
    else (digitsToNat? (c :: rest)).map (fun n => (n : Int))

/-! The identity classifier (source functions `StaffEmail` and
`UniversityStudentEmail`). -/

/-- Source `knownDemonstratorEmails`: empty in the script. -/
def knownDemonstratorEmails : List String := []

/-- Source `StaffEmail(email)`: true when the email looks like a staff email
and should be excluded from the reports. -/
def StaffEmail (email : String) : Bool :=
  containsSub "@glasgow.ac.uk" email ||
  containsSub "@research.glasgow.ac.uk" email ||
  containsSub "@gla.ac.uk" email ||
  containsSub "@research.gla.ac.uk" email ||
  knownDemonstratorEmails.contains email

/-- Source `UniversityStudentEmail(email)`. -/
def UniversityStudentEmail (email : String) : Bool :=
  containsSub "@student.gla.ac.uk" email

/-! The aggregation store: the script's `emails` dict-of-dicts, as
insertion-ordered association lists. -/

/-- One per-day attendance entry: the list `[name, email, start, mins]` the
script stores in `emails[emailKey][date]`. -/
structure Entry where
  name : String
  email : String
  start : String
  mins : Int
deriving DecidableEq, Repr

/-- A parsed data row, after the loop body's extraction: display name, raw
email lowercased, start-timestamp string, minutes, and the calendar date
extracted from the timestamp. -/
structure ParsedRow where
  name : String
  email : String
  start : String
  mins : Int
  date : Date
deriving DecidableEq, Repr

/-- The inner dict `emails[emailKey]`: date → entry, in insertion order. -/
abbrev DateList := List (Date × Entry)

/-- The outer dict `emails`: resolved email key → per-date entries, in
insertion order. -/
abbrev Store := List (String × DateList)

/-- First-match association lookup (Python dict lookup). -/
def lookupA {α β : Type} [DecidableEq α] : List (α × β) → α → Option β
  | [], _ => none
  | (a, b) :: t, k => if a = k then some b else lookupA t k

/-- Update the value at the first matching key (Python dict item update). -/
def updateA {α β : Type} [DecidableEq α] (l : List (α × β)) (k : α) (f : β → β) : List (α × β) :=
  match l with
  | [] => []
  | (a, b) :: t => if a = k then (a, f b) :: t else (a, b) :: updateA t k f

/-- Source lines 151-154: `emailKey = emailMapping[email] if email in
emailMapping else email`. The argument is the already-lowercased email. -/
def resolveKey (m : List (String × String)) (email : String) : String :=
  match lookupA m email with
  | some c => c
  | none => email

/-- Source lines 160-170: fold one parsed row into the `emails` store.
A fresh key or date appends at the end (Python dict insertion order); an
existing (key, date) entry only has its minutes increased. -/
def insertParsed (m : List (String × String)) (s : Store) (r : ParsedRow) : Store :=
  let k := resolveKey m r.email
  match lookupA s k with
  | none => s ++ [(k, [(r.date, ⟨r.name, r.email, r.start, r.mins⟩)])]
  | some dl =>
    match lookupA dl r.date with
    | none => updateA s k (fun dl0 => dl0 ++ [(r.date, ⟨r.name, r.email, r.start, r.mins⟩)])
    | some _ => updateA s k (fun dl0 => updateA dl0 r.date
        (fun e => ⟨e.name, e.email, e.start, e.mins + r.mins⟩))

/-- The aggregator on a sequence of parsed rows, starting from the empty
store. -/
def aggP (m : List (String × String)) (prs : List ParsedRow) : Store :=
  prs.foldl (insertParsed m) []

/-- Lookup of the entry for a (key, date) pair. -/
def lookupE (s : Store) (k : String) (d : Date) : Option Entry :=
  (lookupA s k).bind (fun dl => lookupA dl d)

/-- Cumulative minutes recorded for a (key, date) pair, when present. -/
def minutesAt (s : Store) (k : String) (d : Date) : Option Int :=
  (lookupE s k d).map (fun e => e.mins)

/-- Number of entries stored for a (key, date) pair, counting duplicates in
the association-list representation. -/
def countE (s : Store) (k : String) (d : Date) : Nat :=
  (s.map (fun p => if p.1 = k then ((p.2.map (fun q => if q.1 = d then 1 else 0)).sum) else 0)).sum

/-- Whether a parsed row resolves to the given identity key and date. -/
def matchesKD (m : List (String × String)) (k : String) (d : Date) (r : ParsedRow) : Bool :=
  resolveKey m r.email == k && r.date == d

/-! Sorting (Python `sorted`). -/

/-- Insert into a sorted list (stable). -/
def insertLe {α : Type} (le : α → α → Bool) (a : α) : List α → List α
  | [] => [a]
  | b :: t => if le a b then a :: b :: t else b :: insertLe le a t

/-- Stable insertion sort, standing in for Python's stable `sorted`. -/
def isortBy {α : Type} (le : α → α → Bool) : List α → List α
  | [] => []
  | a :: t => insertLe le a (isortBy le t)

/-- Lexicographic order on character lists by code point, as Python string
comparison. -/
def charListLe : List Char → List Char → Bool
  | [], _ => true
  | _ :: _, [] => false
  | a :: as, b :: bs => a.toNat < b.toNat || (a.toNat == b.toNat && charListLe as bs)

/-- String order used by `sorted(emails)`. -/
def strLeB (a b : String) : Bool := charListLe a.data b.data

/-- Date order used by `sorted(entry)` and `sorted(dateCatalogue)`:
chronological, i.e. lexicographic on (year, month, day). -/
def dateLeB (a b : Date) : Bool :=
  a.year < b.year || (a.year == b.year &&
    (a.month < b.month || (a.month == b.month && a.day ≤ b.day)))

/-- Strict date order. -/
def dateLtB (a b : Date) : Bool :=
  a.year < b.year || (a.year == b.year &&
    (a.month < b.month || (a.month == b.month && a.day < b.day)))

/-- Natural-number order for `sorted(weekCatalogue)`. -/
def natLeB (a b : Nat) : Bool := a ≤ b

/-- The keys of the store in ascending order: `sorted(emails)`. -/
def sortKeys (s : Store) : List String := isortBy strLeB (s.map (fun p => p.1))

/-! Report generation (source lines 199-300). -/

/-- A CSV output cell: the script writes strings, date objects and integers. -/
inductive Cell where
  | str : String → Cell
  | date : Date → Cell
  | int : Int → Cell
deriving DecidableEq, Repr

/-- Source `outputStudentAttendanceOnly = True`. -/
def outputStudentAttendanceOnly : Bool := true

/-- The row written for one entry of the chronological report:
`[name, email, start, mins]`. -/
def entryRow (e : Entry) : List Cell :=
  [Cell.str e.name, Cell.str e.email, Cell.str e.start, Cell.int e.mins]

/-- The chronological-report rows contributed by one key: one row per date in
ascending date order (source lines 210-213). -/
def table1RowsFor (s : Store) (k : String) : List (List Cell) :=
  match lookupA s k with
  | none => []
  | some dl =>
    (isortBy dateLeB (dl.map (fun q => q.1))).filterMap
      (fun d => (lookupA dl d).map entryRow)

/-- Table 1, `meeting-report.csv` (no header row): all rows for non-excluded
keys in ascending key order (source lines 201-213). -/
def table1Body (s : Store) : List (List Cell) :=
  (sortKeys s).flatMap
    (fun k => if outputStudentAttendanceOnly && StaffEmail k then [] else table1RowsFor s k)

/-- Name of the first-inserted entry of a record:
`next(iter(studentRecord.values()))[0]`. -/
def headName (dl : DateList) : String :=
  match dl with
  | [] => ""
  | q :: _ => q.2.name

/-- The keys warned about as low-attending (source lines 214-216): non-staff
keys whose number of distinct dates is at most the warning threshold. -/
def warnedKeys (s : Store) (th : Int) : List String :=
  (sortKeys s).filter
    (fun k =>
      !(outputStudentAttendanceOnly && StaffEmail k) &&
      (!StaffEmail k && decide ((((lookupA s k).getD []).length : Int) ≤ th)))

/-- Append dates not yet present (inner loop of the `dateCatalogue`
construction, source lines 223-228). -/
def dedupAppend (acc : List Date) (ds : List Date) : List Date :=
  ds.foldl (fun a d => if d ∈ a then a else a ++ [d]) acc

/-- Source `dateCatalogue`: every distinct date over all keys (staff
included), in first-encountered order. -/
def dateCat (s : Store) : List Date :=
  (sortKeys s).foldl (fun acc k => dedupAppend acc (((lookupA s k).getD []).map (fun q => q.1))) []

/-- The date columns of Table 2, ascending: `sorted(dateCatalogue)`. -/
def sortedDates (s : Store) : List Date := isortBy dateLeB (dateCat s)

/-- Header row of Table 2, `meeting-report-by-date.csv` (source lines
233-236). -/
def table2Header (s : Store) : List Cell :=
  Cell.str "Name" :: Cell.str "Email" :: (sortedDates s).map Cell.date

/-- One cell of Table 2: the minutes for the date if present, else the empty
string (source lines 248-253). -/
def dateCell (dl : DateList) (d : Date) : Cell :=
  match lookupA dl d with
  | some e => Cell.int e.mins
  | none => Cell.str ""

/-- One data row of Table 2 for a key. -/
def table2Row (s : Store) (dl : DateList) (k : String) : List Cell :=
  Cell.str (headName dl) :: Cell.str k :: (sortedDates s).map (dateCell dl)

/-- Data rows of Table 2: one per non-excluded key in ascending key order
(source lines 238-254). -/
def table2Body (s : Store) : List (List Cell) :=
  (sortKeys s).filterMap
    (fun k =>
      if outputStudentAttendanceOnly && StaffEmail k then none
      else (lookupA s k).map (fun dl => table2Row s dl k))

/-- Append the weeks of one record not yet catalogued (inner loop of the
`weekCatalogue` construction, source lines 261-270): keyed by bare ISO week
number, valued by the Monday of the first-encountered (ISO year, week). -/
def weekAppend (acc : List (Nat × Date)) (dl : DateList) : List (Nat × Date) :=
  dl.foldl
    (fun a q =>
      let w := isoWeekNum q.1
      if (lookupA a w).isSome then a
      else a ++ [(w, dateFromIsoweek (isoYear q.1) w 1)])
    acc

/-- Source `weekCatalogue` over all keys (staff included). -/
def weekCat (s : Store) : List (Nat × Date) :=
  (sortKeys s).foldl (fun acc k => weekAppend acc ((lookupA s k).getD [])) []

/-- The week columns of Table 3, ascending week number:
`sorted(weekCatalogue)`. -/
def sortedWeekNums (s : Store) : List Nat :=
  isortBy natLeB ((weekCat s).map (fun p => p.1))

/-- Header row of Table 3, `meeting-report-by-week.csv` (source lines
275-278): the Monday dates of the catalogued weeks. -/
def table3Header (s : Store) : List Cell :=
  Cell.str "Name" :: Cell.str "Email" ::
    (sortedWeekNums s).map (fun w =>
      match lookupA (weekCat s) w with
      | some md => Cell.date md
      | none => Cell.str "")

/-- Sum of minutes over the dates of a record whose bare ISO week number
matches (source lines 291-295). -/
def weekSum (dl : DateList) (w : Nat) : Int :=
  ((dl.filter (fun q => isoWeekNum q.1 == w)).map (fun q => q.2.mins)).sum

/-- One cell of Table 3: the week sum if positive, else the empty string
(source lines 296-299). -/
def weekCell (dl : DateList) (w : Nat) : Cell :=
  if 0 < weekSum dl w then Cell.int (weekSum dl w) else Cell.str ""

/-- One data row of Table 3 for a key. -/
def table3Row (s : Store) (dl : DateList) (k : String) : List Cell :=
  Cell.str (headName dl) :: Cell.str k :: (sortedWeekNums s).map (weekCell dl)

/-- Data rows of Table 3: one per non-excluded key in ascending key order
(source lines 280-300). -/
def table3Body (s : Store) : List (List Cell) :=
  (sortKeys s).filterMap
    (fun k =>
      if outputStudentAttendanceOnly && StaffEmail k then none
      else (lookupA s k).map (fun dl => table3Row s dl k))

/-! The raw-row pipeline: header skipping, row parsing, per-file and
per-directory processing, and the outer directory loop. -/

/-- The header marker: `row[0].endswith('Name (Original Name)')`. -/
def headerMarker : String := "Name (Original Name)"

/-- Whether a raw CSV row is the header row (source lines 142-146). -/
def isHeaderRow (row : List String) : Bool :=
  match row[0]? with
  | some c0 => endsWithPy c0 headerMarker
  | none => false

/-- Parse one data row (source lines 148-158): field accesses `row[0]`,
`row[1]`, `row[2]`, `row[4]` (an absent field is Python's `IndexError`), then
`int(row[4])` and `strptime(row[2], ...)` (a failure is `ValueError`). -/
def parseRow (row : List String) : Except String ParsedRow :=
  match row[0]?, row[1]?, row[2]?, row[4]? with
  | some nm, some em, some st, some mn =>
    match parseIntPy mn with
    | none => Except.error "ValueError: invalid literal for int()"
    | some mv =>
      match parseTimestamp st with
      | none => Except.error "ValueError: time data does not match format"
      | some dt => Except.ok ⟨nm, lowerS em, st, mv, dt⟩
  | _, _, _, _ => Except.error "IndexError: list index out of range"

/-- Process one raw row against the store (the body of the row loop, source
lines 141-170): skip the header row, otherwise parse and fold in. -/
def processRow (m : List (String × String)) (s : Store) (row : List String) :
    Except String Store :=
  match row[0]? with
  | none => Except.error "IndexError: list index out of range"
  | some c0 =>
    if endsWithPy c0 headerMarker then Except.ok s
    else (parseRow row).map (fun pr => insertParsed m s pr)

/-- Process one input file (source lines 131-170): first the peek reading the
first two rows (and printing `row2[2]`), which raises `StopIteration` or
`IndexError` on short input, then the row loop. -/
def processFile (m : List (String × String)) (s : Store) (rows : List (List String)) :
    Except String Store :=
  match rows[0]?, rows[1]? with
  | some _, some row2 =>
    match row2[2]? with
    | some _ => rows.foldlM (processRow m) s
    | none => Except.error "IndexError: list index out of range"
  | _, _ => Except.error "StopIteration"

/-- The reports produced for one directory. -/
structure Reports where
  report1 : List (List Cell)
  report2 : List (List Cell)
  report3 : List (List Cell)
  warned : List String
deriving DecidableEq, Repr

/-- Generate the three report tables and the warning list from a completed
store. -/
def mkReports (s : Store) (th : Int) : Reports :=
  ⟨table1Body s,
   table2Header s :: table2Body s,
   table3Header s :: table3Body s,
   warnedKeys s th⟩

/-- The input of one directory: its discovered files, each a list of raw CSV
rows. -/
abbrev DirInput := List (List (List String))

/-- Process one directory (source lines 118-300): load every file into a
fresh store, then generate the reports; any exception aborts with no reports
for the directory. -/
def processDirectory (m : List (String × String)) (th : Int) (files : DirInput) :
    Except String Reports :=
  (files.foldlM (processFile m) []).map (fun s => mkReports s th)

/-- The outer loop over directories (source line 118). An uncaught exception
in one directory terminates the script: earlier directories keep their
reports, later directories are never processed. Returns the reports of the
completed directories and the error that stopped the run, if any. -/
def runAll (m : List (String × String)) (th : Int) : List DirInput →
    List Reports × Option String
  | [] => ([], none)
  | dir :: rest =>
    match processDirectory m th dir with
    | Except.ok r =>
      let p := runAll m th rest
      (r :: p.1, p.2)
    | Except.error e => ([], some e)

/-! Specification-side auxiliary definitions and concrete test data. -/

/-- Folding one matching row into an optional entry: first row seen supplies
the representative fields, later rows only add minutes. -/
def foldStep (acc : Option Entry) (r : ParsedRow) : Option Entry :=
  match acc with
  | none => some ⟨r.name, r.email, r.start, r.mins⟩
  | some e => some ⟨e.name, e.email, e.start, e.mins + r.mins⟩

/-- Well-formedness of a store (automatic for Python dicts): outer keys are
distinct and each record's dates are distinct. -/
def StoreWF (s : Store) : Prop :=
  (s.map (fun p => p.1)).Nodup ∧ ∀ p ∈ s, (p.2.map (fun q => q.1)).Nodup

/-- Every stored entry lives under the key its raw email resolves to — an
invariant of the aggregation loop. -/
def KeyConsistent (m : List (String × String)) (s : Store) : Prop :=
  ∀ p ∈ s, ∀ q ∈ p.2, resolveKey m q.2.email = p.1

/-- A Zoom participants-file header row. -/
def headerRow0 : List String :=
  ["Name (Original Name)", "User Email", "Join Time", "Leave Time", "Duration (Minutes)"]

/-- A well-formed data row (30 minutes on 2020-10-01). -/
def rowGood30 : List String :=
  ["A Student", "1X@student.gla.ac.uk", "01/10/2020 09:00:00 AM", "", "30"]

/-- A second well-formed data row for the same participant and date. -/
def rowGood20 : List String :=
  ["A Student", "1x@student.gla.ac.uk", "01/10/2020 09:05:00 AM", "", "20"]

/-- A malformed data row: its duration field is not an integer. -/
def rowBad : List String :=
  ["B Student", "2y@student.gla.ac.uk", "01/10/2020 09:00:00 AM", "", "thirty"]

/-- A directory whose files all parse. -/
def dirGood : DirInput := [[headerRow0, rowGood30], [headerRow0, rowGood20]]

/-- A directory containing a malformed row. -/
def dirBad : DirInput := [[headerRow0, rowBad]]

/-- Two parsed rows with the same identity and date (10 and 15 minutes). -/
def prsPair : List ParsedRow :=
  [⟨"A Student", "x@student.gla.ac.uk", "01/10/2020 09:00:00 AM", 10, ⟨2020, 10, 1⟩⟩,
   ⟨"A. Student", "x@student.gla.ac.uk", "01/10/2020 11:00:00 AM", 15, ⟨2020, 10, 1⟩⟩]

/-- Parsed rows for a staff member and a student on the same date. -/
def prsStaff : List ParsedRow :=
  [⟨"Demo", "demo@glasgow.ac.uk", "05/10/2020 09:00:00 AM", 60, ⟨2020, 10, 5⟩⟩,
   ⟨"T Student", "1a@student.gla.ac.uk", "05/10/2020 09:00:00 AM", 45, ⟨2020, 10, 5⟩⟩]

/-- The alias mapping of the alias-resolution examples. -/
def mapAlias : List (String × String) := [("a@personal.com", "1a@student.gla.ac.uk")]

/-- Two parsed rows of one participant on one date: the first uses the
canonical university email, the second the personal alias. -/
def prsMixed : List ParsedRow :=
  [⟨"Stu", "1a@student.gla.ac.uk", "01/10/2020 09:00:00 AM", 30, ⟨2020, 10, 1⟩⟩,
   ⟨"Stu", "a@personal.com", "01/10/2020 10:00:00 AM", 20, ⟨2020, 10, 1⟩⟩]

/-- Two parsed rows of one participant, both under the personal alias, on one
date. -/
def prsAliasOnly : List ParsedRow :=
  [⟨"Stu", "a@personal.com", "01/10/2020 09:00:00 AM", 30, ⟨2020, 10, 1⟩⟩,
   ⟨"Stu", "a@personal.com", "01/10/2020 10:00:00 AM", 20, ⟨2020, 10, 1⟩⟩]

/-- A store whose single participant attended ISO week 10 of 2020 (Monday
2020-03-02, 30 min) and ISO week 10 of 2021 (Monday 2021-03-08, 45 min). -/
def sCrossYear : Store :=
  [("1a@student.gla.ac.uk",
    [(⟨2020, 3, 2⟩, ⟨"A", "1a@student.gla.ac.uk", "02/03/2020 09:00:00 AM", 30⟩),
     (⟨2021, 3, 8⟩, ⟨"A", "1a@student.gla.ac.uk", "08/03/2021 09:00:00 AM", 45⟩)])]

/-- A store where one date (2020-10-05) is attended only by a staff
identity, and another (2020-10-06) only by a student. -/
def sStaffDate : Store :=
  [("demo@glasgow.ac.uk",
    [(⟨2020, 10, 5⟩, ⟨"Demo", "demo@glasgow.ac.uk", "05/10/2020 09:00:00 AM", 60⟩)]),
   ("1a@student.gla.ac.uk",
    [(⟨2020, 10, 6⟩, ⟨"T", "1a@student.gla.ac.uk", "06/10/2020 09:00:00 AM", 45⟩)])]

/-- Number of distinct dates of a key's record (`len(entry)` in the warning
check). -/
def numDates (s : Store) (k : String) : Nat := ((lookupA s k).getD []).length

/-- A record with exactly two distinct dates (in ISO week 41 of 2020). -/
def dlTwoDates : DateList :=
  [(⟨2020, 10, 5⟩, ⟨"T", "1a@student.gla.ac.uk", "05/10/2020 09:00:00 AM", 30⟩),
   (⟨2020, 10, 6⟩, ⟨"T", "1a@student.gla.ac.uk", "06/10/2020 09:00:00 AM", 45⟩)]

/-- A store whose single student attended exactly two distinct dates. -/
def sTwoDates : Store := [("1a@student.gla.ac.uk", dlTwoDates)]

/-- A store whose single student attended exactly three distinct dates. -/
def sThreeDates : Store :=
  [("1a@student.gla.ac.uk",
    [(⟨2020, 10, 5⟩, ⟨"T", "1a@student.gla.ac.uk", "05/10/2020 09:00:00 AM", 30⟩),
     (⟨2020, 10, 6⟩, ⟨"T", "1a@student.gla.ac.uk", "06/10/2020 09:00:00 AM", 45⟩),
     (⟨2020, 10, 7⟩, ⟨"T", "1a@student.gla.ac.uk", "07/10/2020 09:00:00 AM", 15⟩)])]

/-- Two one-row files of parsed rows for the permutation example. -/
def fileP1 : List ParsedRow :=
  [⟨"A", "x@student.gla.ac.uk", "01/10/2020 09:00:00 AM", 10, ⟨2020, 10, 1⟩⟩]

/-- Second file of the permutation example, same identity and date. -/
def fileP2 : List ParsedRow :=
  [⟨"A2", "x@student.gla.ac.uk", "01/10/2020 11:00:00 AM", 15, ⟨2020, 10, 1⟩⟩]

/-! Association-list lemmas. -/

theorem lookupA_append_of_some {α β : Type} [DecidableEq α] {l : List (α × β)} {k : α} {b : β}
    (h : lookupA l k = some b) (l2 : List (α × β)) : lookupA (l ++ l2) k = some b := by
  induction l with
  | nil => simp [lookupA] at h
  | cons p t ih =>
    rcases p with ⟨a, v⟩
    by_cases hak : a = k
    · simp [lookupA, hak] at h ⊢; exact h
    · simp [lookupA, hak] at h ⊢; exact ih h

theorem lookupA_append_of_none {α β : Type} [DecidableEq α] {l : List (α × β)} {k : α}
    (h : lookupA l k = none) (l2 : List (α × β)) : lookupA (l ++ l2) k = lookupA l2 k := by
  induction l with
  | nil => simp
  | cons p t ih =>
    rcases p with ⟨a, v⟩
    by_cases hak : a = k
    · simp [lookupA, hak] at h
    · simp [lookupA, hak] at h ⊢; exact ih h

theorem lookupA_single {α β : Type} [DecidableEq α] (k k' : α) (v : β) :
    lookupA [(k', v)] k = if k' = k then some v else none := rfl

theorem lookupA_updateA_self {α β : Type} [DecidableEq α] (l : List (α × β)) (k : α) (f : β → β) :
    lookupA (updateA l k f) k = (lookupA l k).map f := by
  induction l with
  | nil => rfl
  | cons p t ih =>
    rcases p with ⟨a, v⟩
    by_cases hak : a = k
    · simp [lookupA, updateA, hak]
    · simp [lookupA, updateA, hak, ih]

theorem lookupA_updateA_ne {α β : Type} [DecidableEq α] (l : List (α × β)) (k k' : α)
    (f : β → β) (h : k ≠ k') : lookupA (updateA l k f) k' = lookupA l k' := by
  induction l with
  | nil => rfl
  | cons p t ih =>
    rcases p with ⟨a, v⟩
    by_cases hak : a = k
    · have hkk' : ¬k = k' := h
      simp [lookupA, updateA, hak, hkk']
    · by_cases hak' : a = k'
      · have hk'k : ¬k' = k := fun hc => h hc.symm
        simp [lookupA, updateA, hak, hak', hk'k]
      · simp [lookupA, updateA, hak, hak', ih]

theorem lookupA_eq_none_iff {α β : Type} [DecidableEq α] (l : List (α × β)) (k : α) :
    lookupA l k = none ↔ k ∉ l.map Prod.fst := by
  induction l with
  | nil => simp [lookupA]
  | cons p t ih =>
    rcases p with ⟨a, v⟩
    by_cases hak : a = k
    · simp [lookupA, hak]
    · simp only [lookupA, if_neg hak, List.map_cons, List.mem_cons, ih]
      constructor
      · intro h1 h2
        rcases h2 with h2 | h2
        · exact hak h2.symm
        · exact h1 h2
      · intro h1 h2
        exact h1 (Or.inr h2)

theorem lookupA_isSome_iff {α β : Type} [DecidableEq α] (l : List (α × β)) (k : α) :
    (lookupA l k).isSome = true ↔ k ∈ l.map Prod.fst := by
  rcases h : lookupA l k with _ | b
  · rw [lookupA_eq_none_iff] at h; simp [h]
  · simp only [Option.isSome_some, true_iff]
    by_contra hmem
    rw [← lookupA_eq_none_iff] at hmem
    rw [h] at hmem; cases hmem

theorem lookupA_mem {α β : Type} [DecidableEq α] {l : List (α × β)} {k : α} {b : β}
    (h : lookupA l k = some b) : (k, b) ∈ l := by
  induction l with
  | nil => simp [lookupA] at h
  | cons p t ih =>
    rcases p with ⟨a, v⟩
    by_cases hak : a = k
    · simp only [lookupA, if_pos hak, Option.some.injEq] at h
      subst h
      subst hak
      exact List.mem_cons_self _ _
    · simp only [lookupA, if_neg hak] at h
      exact List.mem_cons_of_mem _ (ih h)

theorem updateA_map_fst {α β : Type} [DecidableEq α] (l : List (α × β)) (k : α) (f : β → β) :
    (updateA l k f).map Prod.fst = l.map Prod.fst := by
  induction l with
  | nil => rfl
  | cons p t ih =>
    rcases p with ⟨a, v⟩
    by_cases hak : a = k <;> simp [updateA, hak, ih]

theorem mem_updateA {α β : Type} [DecidableEq α] {l : List (α × β)} {k : α} {f : β → β}
    {p : α × β} (h : p ∈ updateA l k f) :
    p ∈ l ∨ ∃ b, lookupA l k = some b ∧ p = (k, f b) := by
  induction l with
  | nil => simp [updateA] at h
  | cons q t ih =>
    rcases q with ⟨a, v⟩
    by_cases hak : a = k
    · rw [updateA, if_pos hak] at h
      rcases List.mem_cons.mp h with h1 | h1
      · refine Or.inr ⟨v, ?_, by rw [h1, hak]⟩
        rw [lookupA, if_pos hak]
      · exact Or.inl (List.mem_cons_of_mem _ h1)
    · rw [updateA, if_neg hak] at h
      rcases List.mem_cons.mp h with h1 | h1
      · exact Or.inl (by rw [h1]; exact List.mem_cons_self _ _)
      · rcases ih h1 with h2 | ⟨b, hb, hp⟩
        · exact Or.inl (List.mem_cons_of_mem _ h2)
        · refine Or.inr ⟨b, ?_, hp⟩
          rw [lookupA, if_neg hak]
          exact hb

/-! Characterization of the aggregation loop. -/

theorem lookupE_insert (m : List (String × String)) (s : Store) (r : ParsedRow)
    (k : String) (d : Date) :
    lookupE (insertParsed m s r) k d =
      if resolveKey m r.email = k ∧ r.date = d then foldStep (lookupE s k d) r
      else lookupE s k d := by
  by_cases hcond : resolveKey m r.email = k ∧ r.date = d
  · rw [if_pos hcond]
    obtain ⟨hk, hd⟩ := hcond
    subst hd
    rcases h1 : lookupA s (resolveKey m r.email) with _ | dl
    · have hstep : insertParsed m s r =
          s ++ [(resolveKey m r.email, [(r.date, ⟨r.name, r.email, r.start, r.mins⟩)])] := by
        simp only [insertParsed, h1]
      rw [hk] at h1 hstep
      rw [hstep]
      simp only [lookupE, lookupA_append_of_none h1, lookupA_single, if_pos rfl, h1]
      simp [lookupA, foldStep]
    · rcases h2 : lookupA dl r.date with _ | e1
      · have hstep : insertParsed m s r = updateA s (resolveKey m r.email)
            (fun dl0 => dl0 ++ [(r.date, ⟨r.name, r.email, r.start, r.mins⟩)]) := by
          simp only [insertParsed, h1, h2]
        rw [hk] at h1 hstep
        rw [hstep]
        simp only [lookupE, lookupA_updateA_self, h1, Option.map_some']
        simp only [Option.some_bind]
        rw [lookupA_append_of_none h2, lookupA_single, h2]
        simp [foldStep]
      · have hstep : insertParsed m s r = updateA s (resolveKey m r.email)
            (fun dl0 => updateA dl0 r.date
              (fun e => ⟨e.name, e.email, e.start, e.mins + r.mins⟩)) := by
          simp only [insertParsed, h1, h2]
        rw [hk] at h1 hstep
        rw [hstep]
        simp only [lookupE, lookupA_updateA_self, h1, Option.map_some']
        simp only [Option.some_bind]
        rw [lookupA_updateA_self, h2]
        simp [foldStep]
  · rw [if_neg hcond]
    rcases h1 : lookupA s (resolveKey m r.email) with _ | dl
    · have hstep : insertParsed m s r =
          s ++ [(resolveKey m r.email, [(r.date, ⟨r.name, r.email, r.start, r.mins⟩)])] := by
        simp only [insertParsed, h1]
      by_cases hk : resolveKey m r.email = k
      · have hd : ¬r.date = d := fun hdd => hcond ⟨hk, hdd⟩
        rw [hk] at h1 hstep
        rw [hstep]
        simp only [lookupE, lookupA_append_of_none h1, lookupA_single, if_pos rfl, h1]
        simp [lookupA, hd]
      · rw [hstep]
        rcases h2 : lookupA s k with _ | dl2
        · simp only [lookupE, lookupA_append_of_none h2, lookupA_single, if_neg hk, h2]
        · simp only [lookupE, lookupA_append_of_some h2, h2]
    · rcases h2 : lookupA dl r.date with _ | e1
      · have hstep : insertParsed m s r = updateA s (resolveKey m r.email)
            (fun dl0 => dl0 ++ [(r.date, ⟨r.name, r.email, r.start, r.mins⟩)]) := by
          simp only [insertParsed, h1, h2]
        by_cases hk : resolveKey m r.email = k
        · have hd : ¬r.date = d := fun hdd => hcond ⟨hk, hdd⟩
          rw [hk] at h1 hstep
          rw [hstep]
          simp only [lookupE, lookupA_updateA_self, h1, Option.map_some']
          simp only [Option.some_bind]
          rcases h3 : lookupA dl d with _ | e2
          · rw [lookupA_append_of_none h3, lookupA_single]
            simp [hd]
          · rw [lookupA_append_of_some h3]
        · rw [hstep]
          simp only [lookupE, lookupA_updateA_ne _ _ _ _ hk]
      · have hstep : insertParsed m s r = updateA s (resolveKey m r.email)
            (fun dl0 => updateA dl0 r.date
              (fun e => ⟨e.name, e.email, e.start, e.mins + r.mins⟩)) := by
          simp only [insertParsed, h1, h2]
        by_cases hk : resolveKey m r.email = k
        · have hd : ¬r.date = d := fun hdd => hcond ⟨hk, hdd⟩
          rw [hk] at h1 hstep
          rw [hstep]
          simp only [lookupE, lookupA_updateA_self, h1, Option.map_some']
          simp only [Option.some_bind]
          rw [lookupA_updateA_ne _ _ _ _ hd]
        · rw [hstep]
          simp only [lookupE, lookupA_updateA_ne _ _ _ _ hk]

theorem lookupE_foldl (m : List (String × String)) (prs : List ParsedRow) :
    ∀ (s : Store) (k : String) (d : Date),
      lookupE (prs.foldl (insertParsed m) s) k d =
        (prs.filter (matchesKD m k d)).foldl foldStep (lookupE s k d) := by
  induction prs with
  | nil => intro s k d; rfl
  | cons r t ih =>
    intro s k d
    simp only [List.foldl_cons, List.filter_cons]
    rcases hm : matchesKD m k d r with _ | _
    · have hcond : ¬(resolveKey m r.email = k ∧ r.date = d) := by
        intro hc
        simp [matchesKD, hc.1, hc.2] at hm
      simp only [hm, Bool.false_eq_true, if_false]
      rw [ih, lookupE_insert, if_neg hcond]
    · have hcond : resolveKey m r.email = k ∧ r.date = d := by
        simpa [matchesKD] using hm
      simp only [hm, if_true]
      simp only [List.foldl_cons]
      rw [ih, lookupE_insert, if_pos hcond]

theorem foldl_foldStep_some (l : List ParsedRow) :
    ∀ e : Entry, l.foldl foldStep (some e) =
      some ⟨e.name, e.email, e.start, e.mins + (l.map (fun q => q.mins)).sum⟩ := by
  induction l with
  | nil => intro e; simp [foldStep]
  | cons r t ih =>
    intro e
    simp only [List.foldl_cons, foldStep, List.map_cons, List.sum_cons]
    rw [ih]
    congr 1
    simp [add_assoc]

theorem foldl_foldStep_none (l : List ParsedRow) :
    l.foldl foldStep none =
      match l with
      | [] => none
      | r :: rs => some ⟨r.name, r.email, r.start, ((r :: rs).map (fun q => q.mins)).sum⟩ := by
  cases l with
  | nil => rfl
  | cons r rs =>
    simp only [List.foldl_cons, foldStep]
    rw [foldl_foldStep_some]
    simp

/-- Master characterization of the aggregator: the entry stored at a
(key, date) pair is determined by the subsequence of rows resolving to that
pair — representative fields from the first such row, minutes summed over
all of them. -/
theorem lookupE_aggP (m : List (String × String)) (prs : List ParsedRow)
    (k : String) (d : Date) :
    lookupE (aggP m prs) k d =
      match prs.filter (matchesKD m k d) with
      | [] => none
      | r :: rs => some ⟨r.name, r.email, r.start, ((r :: rs).map (fun q => q.mins)).sum⟩ := by
  have h0 : lookupE ([] : Store) k d = none := rfl
  rw [aggP, lookupE_foldl, h0, foldl_foldStep_none]

/-! Store well-formedness: the aggregator never stores duplicate keys or
duplicate dates. -/

theorem storeWF_insert (m : List (String × String)) {s : Store} (r : ParsedRow)
    (h : StoreWF s) : StoreWF (insertParsed m s r) := by
  obtain ⟨hkeys, hdates⟩ := h
  rcases h1 : lookupA s (resolveKey m r.email) with _ | dl
  · have hstep : insertParsed m s r =
        s ++ [(resolveKey m r.email, [(r.date, ⟨r.name, r.email, r.start, r.mins⟩)])] := by
      simp only [insertParsed, h1]
    rw [hstep]
    constructor
    · rw [List.map_append]
      have hnot : resolveKey m r.email ∉ s.map (fun p => p.1) := by
        have := (lookupA_eq_none_iff s (resolveKey m r.email)).mp h1
        simpa using this
      simp [List.nodup_append, hkeys, hnot]
    · intro p hp
      rcases List.mem_append.mp hp with hp | hp
      · exact hdates p hp
      · simp only [List.mem_singleton] at hp
        subst hp
        simp
  · rcases h2 : lookupA dl r.date with _ | e1
    · have hstep : insertParsed m s r = updateA s (resolveKey m r.email)
          (fun dl0 => dl0 ++ [(r.date, ⟨r.name, r.email, r.start, r.mins⟩)]) := by
        simp only [insertParsed, h1, h2]
      rw [hstep]
      constructor
      · rw [updateA_map_fst]; exact hkeys
      · intro p hp
        rcases mem_updateA hp with hp | ⟨b, hb, hpe⟩
        · exact hdates p hp
        · rw [h1] at hb
          obtain rfl : dl = b := Option.some.inj hb
          subst hpe
          have hone : (dl.map (fun q => q.1)).Nodup := hdates _ (lookupA_mem h1)
          have hnotd : r.date ∉ dl.map (fun q => q.1) := by
            have := (lookupA_eq_none_iff dl r.date).mp h2
            simpa using this
          simp [List.map_append, List.nodup_append, hone, hnotd]
    · have hstep : insertParsed m s r = updateA s (resolveKey m r.email)
          (fun dl0 => updateA dl0 r.date
            (fun e => ⟨e.name, e.email, e.start, e.mins + r.mins⟩)) := by
        simp only [insertParsed, h1, h2]
      rw [hstep]
      constructor
      · rw [updateA_map_fst]; exact hkeys
      · intro p hp
        rcases mem_updateA hp with hp | ⟨b, hb, hpe⟩
        · exact hdates p hp
        · rw [h1] at hb
          obtain rfl : dl = b := Option.some.inj hb
          subst hpe
          have hone : (dl.map (fun q => q.1)).Nodup := hdates _ (lookupA_mem h1)
          simpa [updateA_map_fst] using hone

theorem storeWF_foldl (m : List (String × String)) (prs : List ParsedRow) :
    ∀ s : Store, StoreWF s → StoreWF (prs.foldl (insertParsed m) s) := by
  induction prs with
  | nil => intro s h; exact h
  | cons r t ih =>
    intro s h
    rw [List.foldl_cons]
    exact ih _ (storeWF_insert m r h)

theorem storeWF_aggP (m : List (String × String)) (prs : List ParsedRow) :
    StoreWF (aggP m prs) :=
  storeWF_foldl m prs [] ⟨List.nodup_nil, by intro p hp; cases hp⟩

/-! Counting: a well-formed store holds at most one entry per (key, date). -/

theorem countE_eq_zero_of_not_mem (d : Date) :
    ∀ (s : Store) (k : String), k ∉ s.map (fun p => p.1) → countE s k d = 0 := by
  intro s
  induction s with
  | nil => intro k h; rfl
  | cons p t ih =>
    intro k h
    simp only [List.map_cons, List.mem_cons] at h
    push_neg at h
    have hstep : countE (p :: t) k d =
        (if p.1 = k then ((p.2.map (fun q => if q.1 = d then 1 else 0)).sum) else 0) +
          countE t k d := by
      simp [countE]
    rw [hstep, if_neg (fun hc => h.1 hc.symm), ih k h.2]

theorem dlcount_of_nodup (d : Date) :
    ∀ dl : DateList, (dl.map (fun q => q.1)).Nodup →
      (dl.map (fun q => if q.1 = d then 1 else 0)).sum =
        if (lookupA dl d).isSome then 1 else 0 := by
  intro dl
  induction dl with
  | nil => intro h; rfl
  | cons q t ih =>
    intro h
    rcases q with ⟨d0, e0⟩
    simp only [List.map_cons, List.nodup_cons] at h
    simp only [List.map_cons, List.sum_cons]
    by_cases hq : d0 = d
    · rw [if_pos hq]
      have hz : (t.map (fun q2 => if q2.1 = d then 1 else 0)).sum = 0 := by
        apply List.sum_eq_zero
        intro x hx
        obtain ⟨q2, hq2, hval⟩ := List.mem_map.mp hx
        have hne : q2.1 ≠ d := by
          intro hc
          apply h.1
          rw [hq, ← hc]
          exact List.mem_map.mpr ⟨q2, hq2, rfl⟩
        rw [← hval, if_neg hne]
      rw [hz, lookupA, if_pos hq]
      simp
    · rw [if_neg hq, lookupA, if_neg hq, ih h.2]
      simp

theorem countE_of_WF (k : String) (d : Date) :
    ∀ s : Store, StoreWF s → countE s k d = if (lookupE s k d).isSome then 1 else 0 := by
  intro s
  induction s with
  | nil => intro hwf; rfl
  | cons p t ih =>
    intro hwf
    obtain ⟨hnd, hin⟩ := hwf
    rcases p with ⟨a, dl⟩
    simp only [List.map_cons, List.nodup_cons] at hnd
    have hstep : countE ((a, dl) :: t) k d =
        (if a = k then ((dl.map (fun q => if q.1 = d then 1 else 0)).sum) else 0) +
          countE t k d := by
      simp [countE]
    rw [hstep]
    by_cases hak : a = k
    · have ht0 : countE t k d = 0 := by
        apply countE_eq_zero_of_not_mem
        rw [← hak]
        exact hnd.1
      rw [if_pos hak, ht0,
        dlcount_of_nodup d dl (by simpa using hin (a, dl) (List.mem_cons_self _ _))]
      simp only [lookupE, lookupA, if_pos hak, Option.some_bind, Nat.add_zero]
    · rw [if_neg hak, Nat.zero_add]
      have := ih ⟨hnd.2, fun p hp => hin p (List.mem_cons_of_mem _ hp)⟩
      rw [this]
      simp only [lookupE, lookupA, if_neg hak]

theorem countE_aggP (m : List (String × String)) (prs : List ParsedRow)
    (k : String) (d : Date) :
    countE (aggP m prs) k d = if (lookupE (aggP m prs) k d).isSome then 1 else 0 :=
  countE_of_WF k d _ (storeWF_aggP m prs)

/-! Key consistency: every stored entry lives under the key its raw email
resolves to. -/

theorem keyConsistent_insert (m : List (String × String)) {s : Store} (r : ParsedRow)
    (h : KeyConsistent m s) : KeyConsistent m (insertParsed m s r) := by
  rcases h1 : lookupA s (resolveKey m r.email) with _ | dl
  · have hstep : insertParsed m s r =
        s ++ [(resolveKey m r.email, [(r.date, ⟨r.name, r.email, r.start, r.mins⟩)])] := by
      simp only [insertParsed, h1]
    rw [hstep]
    intro p hp q hq
    rcases List.mem_append.mp hp with hp | hp
    · exact h p hp q hq
    · simp only [List.mem_singleton] at hp
      subst hp
      simp only [List.mem_singleton] at hq
      subst hq
      rfl
  · rcases h2 : lookupA dl r.date with _ | e1
    · have hstep : insertParsed m s r = updateA s (resolveKey m r.email)
          (fun dl0 => dl0 ++ [(r.date, ⟨r.name, r.email, r.start, r.mins⟩)]) := by
        simp only [insertParsed, h1, h2]
      rw [hstep]
      intro p hp q hq
      rcases mem_updateA hp with hp | ⟨b, hb, hpe⟩
      · exact h p hp q hq
      · rw [h1] at hb
        obtain rfl : dl = b := Option.some.inj hb
        subst hpe
        rcases List.mem_append.mp hq with hq | hq
        · exact h _ (lookupA_mem h1) q hq
        · simp only [List.mem_singleton] at hq
          subst hq
          rfl
    · have hstep : insertParsed m s r = updateA s (resolveKey m r.email)
          (fun dl0 => updateA dl0 r.date
            (fun e => ⟨e.name, e.email, e.start, e.mins + r.mins⟩)) := by
        simp only [insertParsed, h1, h2]
      rw [hstep]
      intro p hp q hq
      rcases mem_updateA hp with hp | ⟨b, hb, hpe⟩
      · exact h p hp q hq
      · rw [h1] at hb
        obtain rfl : dl = b := Option.some.inj hb
        subst hpe
        rcases mem_updateA hq with hq | ⟨e2, he2, hqe⟩
        · exact h _ (lookupA_mem h1) q hq
        · subst hqe
          have := h _ (lookupA_mem h1) _ (lookupA_mem he2)
          simpa using this

theorem keyConsistent_foldl (m : List (String × String)) (prs : List ParsedRow) :
    ∀ s : Store, KeyConsistent m s → KeyConsistent m (prs.foldl (insertParsed m) s) := by
  induction prs with
  | nil => intro s h; exact h
  | cons r t ih =>
    intro s h
    rw [List.foldl_cons]
    exact ih _ (keyConsistent_insert m r h)

theorem keyConsistent_aggP (m : List (String × String)) (prs : List ParsedRow) :
    KeyConsistent m (aggP m prs) :=
  keyConsistent_foldl m prs [] (by intro p hp; cases hp)

/-! Cumulative minutes as a function of the multiset of matching rows. -/

theorem minutesAt_aggP (m : List (String × String)) (prs : List ParsedRow)
    (k : String) (d : Date) :
    minutesAt (aggP m prs) k d =
      if (prs.filter (matchesKD m k d)).isEmpty then none
      else some (((prs.filter (matchesKD m k d)).map (fun q => q.mins)).sum) := by
  rw [minutesAt, lookupE_aggP]
  generalize prs.filter (matchesKD m k d) = l
  cases l with
  | nil => rfl
  | cons r rs => simp

theorem minutesAt_perm (m : List (String × String))
    {files files2 : List (List ParsedRow)} (hp : files.Perm files2)
    (k : String) (d : Date) :
    minutesAt (aggP m files.flatten) k d = minutesAt (aggP m files2.flatten) k d := by
  have hperm : (files.flatten.filter (matchesKD m k d)).Perm
      (files2.flatten.filter (matchesKD m k d)) := (hp.flatten).filter _
  have hemp : (files.flatten.filter (matchesKD m k d)).isEmpty =
      (files2.flatten.filter (matchesKD m k d)).isEmpty := by
    rcases hc : files2.flatten.filter (matchesKD m k d) with _ | ⟨r, rs⟩
    · rw [hc] at hperm
      rw [List.isEmpty_iff.mpr hperm.eq_nil]
      rfl
    · rw [hc] at hperm
      have : files.flatten.filter (matchesKD m k d) ≠ [] := by
        intro hnil
        rw [hnil] at hperm
        exact (List.cons_ne_nil r rs) hperm.symm.eq_nil
      rcases hd2 : files.flatten.filter (matchesKD m k d) with _ | _
      · exact absurd hd2 this
      · rfl
  have hsum : ((files.flatten.filter (matchesKD m k d)).map (fun q => q.mins)).sum =
      ((files2.flatten.filter (matchesKD m k d)).map (fun q => q.mins)).sum :=
    (hperm.map _).sum_eq
  rw [minutesAt_aggP, minutesAt_aggP, hemp, hsum]

/-! Sorting lemmas for the insertion sort standing in for Python `sorted`. -/

theorem insertLe_perm {α : Type} (le : α → α → Bool) (a : α) (l : List α) :
    (insertLe le a l).Perm (a :: l) := by
  induction l with
  | nil => exact List.Perm.refl _
  | cons b t ih =>
    rw [insertLe]
    by_cases h : le a b
    · rw [if_pos h]
    · rw [if_neg h]
      exact (ih.cons b).trans (List.Perm.swap a b t)

theorem isortBy_perm {α : Type} (le : α → α → Bool) (l : List α) :
    (isortBy le l).Perm l := by
  induction l with
  | nil => exact List.Perm.refl _
  | cons a t ih => exact (insertLe_perm le a _).trans (ih.cons a)

theorem mem_isortBy {α : Type} (le : α → α → Bool) (l : List α) (x : α) :
    x ∈ isortBy le l ↔ x ∈ l :=
  (isortBy_perm le l).mem_iff

theorem insertLe_pairwise {α : Type} (le : α → α → Bool)
    (htot : ∀ a b, le a b = true ∨ le b a = true)
    (htrans : ∀ a b c, le a b = true → le b c = true → le a c = true)
    (a : α) (l : List α) (hl : l.Pairwise (fun x y => le x y = true)) :
    (insertLe le a l).Pairwise (fun x y => le x y = true) := by
  induction l with
  | nil => simp [insertLe]
  | cons b t ih =>
    rw [List.pairwise_cons] at hl
    obtain ⟨hb, ht⟩ := hl
    rw [insertLe]
    by_cases h : le a b
    · rw [if_pos h, List.pairwise_cons]
      constructor
      · intro x hx
        rcases List.mem_cons.mp hx with hx | hx
        · rw [hx]; exact h
        · exact htrans a b x h (hb x hx)
      · exact List.pairwise_cons.mpr ⟨hb, ht⟩
    · rw [if_neg h, List.pairwise_cons]
      constructor
      · intro x hx
        have hmem : x ∈ a :: t := (insertLe_perm le a t).mem_iff.mp hx
        rcases List.mem_cons.mp hmem with hx1 | hx1
        · rcases htot a b with hab | hba
          · exact absurd hab h
          · rw [hx1]; exact hba
        · exact hb x hx1
      · exact ih ht

theorem isortBy_pairwise {α : Type} (le : α → α → Bool)
    (htot : ∀ a b, le a b = true ∨ le b a = true)
    (htrans : ∀ a b c, le a b = true → le b c = true → le a c = true)
    (l : List α) : (isortBy le l).Pairwise (fun x y => le x y = true) := by
  induction l with
  | nil => simp [isortBy]
  | cons a t ih => exact insertLe_pairwise le htot htrans a _ ih

/-! Facts about the date order. -/

theorem dateLeB_total (a b : Date) : dateLeB a b = true ∨ dateLeB b a = true := by
  simp only [dateLeB, Bool.or_eq_true, Bool.and_eq_true, decide_eq_true_eq, beq_iff_eq]
  omega

theorem dateLeB_trans (a b c : Date) (h1 : dateLeB a b = true) (h2 : dateLeB b c = true) :
    dateLeB a c = true := by
  simp only [dateLeB, Bool.or_eq_true, Bool.and_eq_true, decide_eq_true_eq, beq_iff_eq] at h1 h2 ⊢
  omega

theorem dateLtB_of_le_ne {a b : Date} (h1 : dateLeB a b = true) (h2 : a ≠ b) :
    dateLtB a b = true := by
  cases a with
  | mk y1 m1 d1 =>
    cases b with
    | mk y2 m2 d2 =>
      have h3 : ¬(y1 = y2 ∧ m1 = m2 ∧ d1 = d2) := by
        intro hc
        exact h2 (by rw [hc.1, hc.2.1, hc.2.2])
      simp only [dateLeB, Bool.or_eq_true, Bool.and_eq_true, decide_eq_true_eq,
        beq_iff_eq] at h1
      simp only [dateLtB, Bool.or_eq_true, Bool.and_eq_true, decide_eq_true_eq, beq_iff_eq]
      omega

/-! The date catalogue: deduplicated collection of all dates in the store. -/

theorem dedupAppend_nodup : ∀ (ds acc : List Date), acc.Nodup → (dedupAppend acc ds).Nodup := by
  intro ds
  induction ds with
  | nil => intro acc h; exact h
  | cons d t ih =>
    intro acc h
    simp only [dedupAppend, List.foldl_cons]
    apply ih
    by_cases hd : d ∈ acc
    · simpa [hd] using h
    · simp only [if_neg hd]
      simp [List.nodup_append, h, hd]

theorem mem_dedupAppend : ∀ (ds acc : List Date) (x : Date),
    x ∈ dedupAppend acc ds ↔ x ∈ acc ∨ x ∈ ds := by
  intro ds
  induction ds with
  | nil => intro acc x; simp [dedupAppend]
  | cons d t ih =>
    intro acc x
    simp only [dedupAppend, List.foldl_cons]
    rw [show List.foldl (fun a d2 => if d2 ∈ a then a else a ++ [d2])
        (if d ∈ acc then acc else acc ++ [d]) t =
        dedupAppend (if d ∈ acc then acc else acc ++ [d]) t from rfl, ih]
    by_cases hd : d ∈ acc
    · simp only [if_pos hd, List.mem_cons]
      constructor
      · tauto
      · intro h1
        rcases h1 with h1 | h1 | h1
        · exact Or.inl h1
        · exact Or.inl (h1 ▸ hd)
        · exact Or.inr h1
    · simp only [if_neg hd, List.mem_append, List.mem_singleton, List.mem_cons]
      tauto

theorem dateCat_foldl_nodup (s : Store) :
    ∀ (ks : List String) (acc : List Date), acc.Nodup →
      (ks.foldl (fun a k => dedupAppend a (((lookupA s k).getD []).map (fun q => q.1))) acc).Nodup := by
  intro ks
  induction ks with
  | nil => intro acc h; exact h
  | cons k t ih =>
    intro acc h
    rw [List.foldl_cons]
    exact ih _ (dedupAppend_nodup _ acc h)

theorem dateCat_foldl_mem (s : Store) :
    ∀ (ks : List String) (acc : List Date) (x : Date),
      x ∈ ks.foldl (fun a k => dedupAppend a (((lookupA s k).getD []).map (fun q => q.1))) acc ↔
        x ∈ acc ∨ ∃ k ∈ ks, x ∈ ((lookupA s k).getD []).map (fun q => q.1) := by
  intro ks
  induction ks with
  | nil => intro acc x; simp
  | cons k t ih =>
    intro acc x
    rw [List.foldl_cons, ih, mem_dedupAppend]
    simp only [List.mem_cons, exists_eq_or_imp]
    tauto

theorem dateCat_nodup (s : Store) : (dateCat s).Nodup :=
  dateCat_foldl_nodup s (sortKeys s) [] List.nodup_nil

theorem mem_dateCat (s : Store) (x : Date) :
    x ∈ dateCat s ↔ ∃ k dl, lookupA s k = some dl ∧ x ∈ dl.map (fun q => q.1) := by
  rw [dateCat, dateCat_foldl_mem]
  simp only [List.not_mem_nil, false_or]
  constructor
  · rintro ⟨k, hk, hx⟩
    rcases hl : lookupA s k with _ | dl
    · rw [hl] at hx; simp at hx
    · rw [hl] at hx
      exact ⟨k, dl, hl, by simpa using hx⟩
  · rintro ⟨k, dl, hl, hx⟩
    refine ⟨k, ?_, ?_⟩
    · rw [sortKeys, mem_isortBy]
      exact List.mem_map.mpr ⟨(k, dl), lookupA_mem hl, rfl⟩
    · rw [hl]; simpa using hx

/-! Membership lemmas for the three report tables. -/

theorem mem_sortKeys_of_lookup {s : Store} {k : String} {dl : DateList}
    (h : lookupA s k = some dl) : k ∈ sortKeys s := by
  rw [sortKeys, mem_isortBy]
  exact List.mem_map.mpr ⟨(k, dl), lookupA_mem h, rfl⟩

theorem mem_table1Body {s : Store} {row : List Cell} (h : row ∈ table1Body s) :
    ∃ k, StaffEmail k = false ∧ row ∈ table1RowsFor s k := by
  rw [table1Body] at h
  obtain ⟨k, hk, hrow⟩ := List.mem_flatMap.mp h
  by_cases hst : StaffEmail k
  · simp [outputStudentAttendanceOnly, hst] at hrow
  · refine ⟨k, by simp [hst], ?_⟩
    simpa [outputStudentAttendanceOnly, hst] using hrow

theorem mem_table1RowsFor {s : Store} {k : String} {row : List Cell}
    (h : row ∈ table1RowsFor s k) :
    ∃ dl d e, lookupA s k = some dl ∧ lookupA dl d = some e ∧ row = entryRow e := by
  rw [table1RowsFor] at h
  rcases hl : lookupA s k with _ | dl
  · rw [hl] at h; cases h
  · rw [hl] at h
    obtain ⟨d, hd, he⟩ := List.mem_filterMap.mp h
    rcases he2 : lookupA dl d with _ | e
    · rw [he2] at he; cases he
    · rw [he2] at he
      simp only [Option.map_some'] at he
      exact ⟨dl, d, e, rfl, he2, (Option.some.inj he).symm⟩

theorem table1RowsFor_mem {s : Store} {k : String} {dl : DateList} {d : Date} {e : Entry}
    (hl : lookupA s k = some dl) (he : lookupA dl d = some e) :
    entryRow e ∈ table1RowsFor s k := by
  rw [table1RowsFor, hl]
  apply List.mem_filterMap.mpr
  refine ⟨d, ?_, by rw [he]; rfl⟩
  rw [mem_isortBy]
  exact List.mem_map.mpr ⟨(d, e), lookupA_mem he, rfl⟩

theorem table1Body_mem {s : Store} {k : String} {row : List Cell}
    (hst : StaffEmail k = false) (hks : k ∈ sortKeys s)
    (hrow : row ∈ table1RowsFor s k) : row ∈ table1Body s := by
  rw [table1Body]
  apply List.mem_flatMap.mpr
  refine ⟨k, hks, ?_⟩
  simpa [outputStudentAttendanceOnly, hst] using hrow

theorem mem_table2Body {s : Store} {row : List Cell} (h : row ∈ table2Body s) :
    ∃ k dl, StaffEmail k = false ∧ lookupA s k = some dl ∧ row = table2Row s dl k := by
  rw [table2Body] at h
  obtain ⟨k, hk, hf⟩ := List.mem_filterMap.mp h
  by_cases hst : StaffEmail k
  · simp [outputStudentAttendanceOnly, hst] at hf
  · rcases hl : lookupA s k with _ | dl
    · rw [if_neg (by simp [outputStudentAttendanceOnly, hst]), hl] at hf
      cases hf
    · rw [if_neg (by simp [outputStudentAttendanceOnly, hst]), hl] at hf
      exact ⟨k, dl, by simp [hst], hl, (Option.some.inj hf).symm⟩

theorem table2Body_mem {s : Store} {k : String} {dl : DateList}
    (hst : StaffEmail k = false) (hl : lookupA s k = some dl) :
    table2Row s dl k ∈ table2Body s := by
  rw [table2Body]
  apply List.mem_filterMap.mpr
  refine ⟨k, mem_sortKeys_of_lookup hl, ?_⟩
  rw [if_neg (by simp [outputStudentAttendanceOnly, hst]), hl]
  rfl

theorem mem_table3Body {s : Store} {row : List Cell} (h : row ∈ table3Body s) :
    ∃ k dl, StaffEmail k = false ∧ lookupA s k = some dl ∧ row = table3Row s dl k := by
  rw [table3Body] at h
  obtain ⟨k, hk, hf⟩ := List.mem_filterMap.mp h
  by_cases hst : StaffEmail k
  · simp [outputStudentAttendanceOnly, hst] at hf
  · rcases hl : lookupA s k with _ | dl
    · rw [if_neg (by simp [outputStudentAttendanceOnly, hst]), hl] at hf
      cases hf
    · rw [if_neg (by simp [outputStudentAttendanceOnly, hst]), hl] at hf
      exact ⟨k, dl, by simp [hst], hl, (Option.some.inj hf).symm⟩

theorem table3Body_mem {s : Store} {k : String} {dl : DateList}
    (hst : StaffEmail k = false) (hl : lookupA s k = some dl) :
    table3Row s dl k ∈ table3Body s := by
  rw [table3Body]
  apply List.mem_filterMap.mpr
  refine ⟨k, mem_sortKeys_of_lookup hl, ?_⟩
  rw [if_neg (by simp [outputStudentAttendanceOnly, hst]), hl]
  rfl

/-! Failure propagation through the row, file and directory loops. -/

theorem except_bind_error {ε α β : Type} (e : ε) (f : α → Except ε β) :
    (Except.error e >>= f) = Except.error e := rfl

theorem except_bind_ok {ε α β : Type} (a : α) (f : α → Except ε β) :
    (Except.ok a >>= f) = f a := rfl

theorem foldlM_error {α σ : Type} (step : σ → α → Except String σ) {x : α}
    (hx : ∀ s, (step s x).isOk = false) :
    ∀ l : List α, x ∈ l → ∀ s : σ, (List.foldlM step s l).isOk = false := by
  intro l
  induction l with
  | nil => intro hmem; cases hmem
  | cons y t ih =>
    intro hmem s
    rw [List.foldlM_cons]
    rcases hy : step s y with e | s2
    · rfl
    · rcases List.mem_cons.mp hmem with hxy | hxt
      · rw [← hxy] at hy
        have := hx s
        rw [hy] at this
        simp [Except.isOk, Except.toBool] at this
      · exact ih hxt s2

theorem processRow_fails (m : List (String × String)) {row : List String}
    (hh : isHeaderRow row = false) (hb : (parseRow row).isOk = false) :
    ∀ s, (processRow m s row).isOk = false := by
  intro s
  rcases h0 : row[0]? with _ | c0
  · simp [processRow, h0, Except.isOk, Except.toBool]
  · have hh2 : endsWithPy c0 headerMarker = false := by
      simpa [isHeaderRow, h0] using hh
    rcases hp : parseRow row with e | pr
    · simp [processRow, h0, hh2, hp, Except.map, Except.isOk, Except.toBool]
    · rw [hp] at hb
      simp [Except.isOk, Except.toBool] at hb

theorem processFile_fails (m : List (String × String)) {f : List (List String)}
    (hbad : ∃ row ∈ f, isHeaderRow row = false ∧ (parseRow row).isOk = false) :
    ∀ s, (processFile m s f).isOk = false := by
  intro s
  rw [processFile]
  rcases h0 : f[0]? with _ | r1
  · rfl
  · rcases h1 : f[1]? with _ | r2
    · rfl
    · rcases h2 : r2[2]? with _ | c
      · simp [h2, Except.isOk, Except.toBool]
      · obtain ⟨row, hrow, hh, hb⟩ := hbad
        have hfold := foldlM_error (processRow m) (processRow_fails m hh hb) f hrow s
        simp only [h2]
        exact hfold

theorem processFile_short (m : List (String × String)) {f : List (List String)}
    (hlen : f.length < 2) : ∀ s, (processFile m s f).isOk = false := by
  intro s
  rcases f with _ | ⟨r1, _ | ⟨r2, t⟩⟩
  · rfl
  · rfl
  · exfalso
    simp only [List.length_cons] at hlen
    omega

theorem processDirectory_fails (m : List (String × String)) (th : Int) {files : DirInput}
    {f : List (List String)} (hf : f ∈ files)
    (hfail : ∀ s, (processFile m s f).isOk = false) :
    (processDirectory m th files).isOk = false := by
  rw [processDirectory]
  have h := foldlM_error (processFile m) hfail files hf []
  rcases hfold : List.foldlM (processFile m) [] files with e | s
  · rfl
  · rw [hfold] at h
    simp [Except.isOk, Except.toBool] at h

theorem runAll_of_failure (m : List (String × String)) (th : Int) :
    ∀ (pre : List DirInput) (dbad : DirInput) (post : List DirInput),
      (∀ x ∈ pre, (processDirectory m th x).isOk = true) →
      (processDirectory m th dbad).isOk = false →
      (runAll m th (pre ++ dbad :: post)).1 =
          pre.filterMap (fun x => (processDirectory m th x).toOption) ∧
        (runAll m th (pre ++ dbad :: post)).2.isSome = true := by
  intro pre
  induction pre with
  | nil =>
    intro dbad post hpre hbad
    rcases hd : processDirectory m th dbad with e | r
    · simp [runAll, hd]
    · rw [hd] at hbad
      simp [Except.isOk, Except.toBool] at hbad
  | cons x pre2 ih =>
    intro dbad post hpre hbad
    have hx := hpre x (List.mem_cons_self _ _)
    rcases hxo : processDirectory m th x with e | r
    · rw [hxo] at hx
      simp [Except.isOk, Except.toBool] at hx
    · obtain ⟨ih1, ih2⟩ := ih dbad post (fun y hy => hpre y (List.mem_cons_of_mem _ hy)) hbad
      have hun : runAll m th ((x :: pre2) ++ dbad :: post) =
          (r :: (runAll m th (pre2 ++ dbad :: post)).1,
            (runAll m th (pre2 ++ dbad :: post)).2) := by
        simp only [List.cons_append, runAll, hxo]
        rfl
      rw [hun]
      constructor
      · simp only [List.filterMap_cons, hxo, Except.toOption, ih1]
      · exact ih2

/-! Claim theorems. -/

/-- C1: whenever two or more rows resolve to the same IdentityKey and the
same calendar date, the aggregator holds exactly one entry for that (key,
date); its cumulative minutes is the sum of the minutes of all such rows and
its representative name, email and start fields are those of the first such
row (later rows never update them). -/
theorem same_day_fusion (m : List (String × String)) (prs : List ParsedRow)
    (k : String) (d : Date)
    (h2 : 2 ≤ (prs.filter (matchesKD m k d)).length) :
    ∃ r rs, prs.filter (matchesKD m k d) = r :: rs ∧
      countE (aggP m prs) k d = 1 ∧
      lookupE (aggP m prs) k d =
        some ⟨r.name, r.email, r.start,
          ((prs.filter (matchesKD m k d)).map (fun q => q.mins)).sum⟩ := by
  rcases hfl : prs.filter (matchesKD m k d) with _ | ⟨r, rs⟩
  · rw [hfl] at h2
    simp at h2
  · refine ⟨r, rs, rfl, ?_, ?_⟩
    · rw [countE_aggP, lookupE_aggP, hfl]
      simp
    · rw [lookupE_aggP, hfl]

/-- Witness for the same-day fusion theorem: two rows of 10 and 15 minutes
on 2020-10-01 for the same student. -/
theorem same_day_fusion_witness :
    ∃ r rs, prsPair.filter (matchesKD [] "x@student.gla.ac.uk" ⟨2020, 10, 1⟩) = r :: rs ∧
      countE (aggP [] prsPair) "x@student.gla.ac.uk" ⟨2020, 10, 1⟩ = 1 ∧
      lookupE (aggP [] prsPair) "x@student.gla.ac.uk" ⟨2020, 10, 1⟩ =
        some ⟨r.name, r.email, r.start,
          ((prsPair.filter (matchesKD [] "x@student.gla.ac.uk" ⟨2020, 10, 1⟩)).map
            (fun q => q.mins)).sum⟩ :=
  same_day_fusion [] prsPair "x@student.gla.ac.uk" ⟨2020, 10, 1⟩ (by decide)

/-- C2: the resolved IdentityKey of a lowercased raw email is the mapped
canonical email when a mapping entry exists and the raw email unchanged
otherwise, and the aggregate contents stored under a key depend only on the
rows whose resolved key equals it. -/
theorem identity_resolution (m : List (String × String)) (e : String)
    (prs : List ParsedRow) (k : String) (d : Date) :
    (∀ c, lookupA m (lowerS e) = some c → resolveKey m (lowerS e) = c) ∧
    (lookupA m (lowerS e) = none → resolveKey m (lowerS e) = lowerS e) ∧
    lookupE (aggP m prs) k d =
      lookupE (aggP m (prs.filter (fun r => resolveKey m r.email == k))) k d := by
  refine ⟨?_, ?_, ?_⟩
  · intro c hc
    rw [resolveKey, hc]
  · intro hc
    rw [resolveKey, hc]
  · rw [lookupE_aggP, lookupE_aggP]
    have hff : (prs.filter (fun r => resolveKey m r.email == k)).filter (matchesKD m k d) =
        prs.filter (matchesKD m k d) := by
      rw [List.filter_filter]
      apply List.filter_congr
      intro r _
      cases hb : resolveKey m r.email == k <;> cases hdt : r.date == d <;>
        simp [matchesKD, hb, hdt]
    rw [hff]

/-- Witness for the identity-resolution theorem at the alias mapping
a@personal.com to 1a@student.gla.ac.uk. -/
theorem identity_resolution_witness :
    resolveKey mapAlias (lowerS "A@Personal.Com") = "1a@student.gla.ac.uk" ∧
    resolveKey mapAlias (lowerS "B@Else.Com") = lowerS "B@Else.Com" ∧
    lookupE (aggP mapAlias prsMixed) "1a@student.gla.ac.uk" ⟨2020, 10, 1⟩ =
      lookupE (aggP mapAlias (prsMixed.filter
          (fun r => resolveKey mapAlias r.email == "1a@student.gla.ac.uk")))
        "1a@student.gla.ac.uk" ⟨2020, 10, 1⟩ :=
  ⟨(identity_resolution mapAlias "A@Personal.Com" prsMixed "1a@student.gla.ac.uk"
      ⟨2020, 10, 1⟩).1 _ (by decide),
   (identity_resolution mapAlias "B@Else.Com" prsMixed "1a@student.gla.ac.uk"
      ⟨2020, 10, 1⟩).2.1 (by decide),
   (identity_resolution mapAlias "A@Personal.Com" prsMixed "1a@student.gla.ac.uk"
      ⟨2020, 10, 1⟩).2.2⟩

/-- C8: the aggregator is a pure function — running it twice on the same row
sequence yields the same store — and any permutation of the input files
leaves every (IdentityKey, date) cumulative-minutes value unchanged, because
minute summation is commutative and associative. -/
theorem aggregator_order_invariance (m : List (String × String))
    (files files2 : List (List ParsedRow)) (hp : files.Perm files2)
    (k : String) (d : Date) :
    aggP m files.flatten = aggP m files.flatten ∧
    minutesAt (aggP m files.flatten) k d = minutesAt (aggP m files2.flatten) k d :=
  ⟨rfl, minutesAt_perm m hp k d⟩

/-- Witness for the order-invariance theorem at two one-row files in both
orders. -/
theorem aggregator_order_invariance_witness :
    aggP [] [fileP1, fileP2].flatten = aggP [] [fileP1, fileP2].flatten ∧
    minutesAt (aggP [] [fileP1, fileP2].flatten) "x@student.gla.ac.uk" ⟨2020, 10, 1⟩ =
      minutesAt (aggP [] [fileP2, fileP1].flatten) "x@student.gla.ac.uk" ⟨2020, 10, 1⟩ :=
  aggregator_order_invariance [] [fileP1, fileP2] [fileP2, fileP1]
    (List.Perm.swap fileP2 fileP1 []) "x@student.gla.ac.uk" ⟨2020, 10, 1⟩

/-- C3: an IdentityKey classified as staff contributes no row to any of the
three reports in the default student-only mode: none of its chronological
rows appears in Table 1, and no row of Table 2 or Table 3 carries it in the
Email column. -/
theorem staff_excluded_from_reports (m : List (String × String)) (prs : List ParsedRow)
    (k : String) (hk : StaffEmail k = true) :
    (∀ d e, lookupE (aggP m prs) k d = some e → entryRow e ∉ table1Body (aggP m prs)) ∧
    (∀ row ∈ table2Body (aggP m prs), row[1]? ≠ some (Cell.str k)) ∧
    (∀ row ∈ table3Body (aggP m prs), row[1]? ≠ some (Cell.str k)) := by
  refine ⟨?_, ?_, ?_⟩
  · intro d e he hmem
    obtain ⟨k2, hk2, hrow⟩ := mem_table1Body hmem
    obtain ⟨dl2, d2, e2, hl2, he2, hrow2⟩ := mem_table1RowsFor hrow
    have hem : e.email = e2.email := by
      simp only [entryRow, List.cons.injEq, Cell.str.injEq, Cell.int.injEq, and_true] at hrow2
      exact hrow2.2.1
    have hc1 : resolveKey m e.email = k := by
      rw [lookupE] at he
      rcases hl : lookupA (aggP m prs) k with _ | dl
      · rw [hl] at he; cases he
      · rw [hl] at he
        simp only [Option.some_bind] at he
        exact keyConsistent_aggP m prs _ (lookupA_mem hl) _ (lookupA_mem he)
    have hc2 : resolveKey m e2.email = k2 :=
      keyConsistent_aggP m prs _ (lookupA_mem hl2) _ (lookupA_mem he2)
    rw [hem] at hc1
    have hkk : k = k2 := hc1.symm.trans hc2
    rw [← hkk] at hk2
    rw [hk] at hk2
    cases hk2
  · intro row hrow heq
    obtain ⟨k2, dl2, hk2, hl2, hroweq⟩ := mem_table2Body hrow
    subst hroweq
    have h1 : (table2Row (aggP m prs) dl2 k2)[1]? = some (Cell.str k2) := by
      simp [table2Row]
    rw [h1] at heq
    have hkk : k2 = k := Cell.str.inj (Option.some.inj heq)
    rw [hkk] at hk2
    rw [hk] at hk2
    cases hk2
  · intro row hrow heq
    obtain ⟨k2, dl2, hk2, hl2, hroweq⟩ := mem_table3Body hrow
    subst hroweq
    have h1 : (table3Row (aggP m prs) dl2 k2)[1]? = some (Cell.str k2) := by
      simp [table3Row]
    rw [h1] at heq
    have hkk : k2 = k := Cell.str.inj (Option.some.inj heq)
    rw [hkk] at hk2
    rw [hk] at hk2
    cases hk2

/-- Witness for the staff-exclusion theorem: the staff entry of 2020-10-05
does not appear in Table 1. -/
theorem staff_excluded_witness :
    entryRow ⟨"Demo", "demo@glasgow.ac.uk", "05/10/2020 09:00:00 AM", 60⟩ ∉
      table1Body (aggP [] prsStaff) :=
  (staff_excluded_from_reports [] prsStaff "demo@glasgow.ac.uk" (by decide)).1
    ⟨2020, 10, 5⟩ ⟨"Demo", "demo@glasgow.ac.uk", "05/10/2020 09:00:00 AM", 60⟩ (by decide)

/-- C7: a low-attendance warning is emitted for a non-excluded key exactly
when its number of distinct attended dates is at most the threshold; with
threshold 2, exactly two dates warn and three do not, and with the default
threshold 0 any key with at least one date is never warned. -/
theorem warning_threshold (s : Store) (k : String) (th : Int)
    (hmem : k ∈ sortKeys s) (hstaff : StaffEmail k = false) :
    (k ∈ warnedKeys s th ↔ ((numDates s k : Int) ≤ th)) ∧
    (numDates s k = 2 → k ∈ warnedKeys s 2) ∧
    (numDates s k = 3 → k ∉ warnedKeys s 2) ∧
    (1 ≤ numDates s k → k ∉ warnedKeys s 0) := by
  have hiff : ∀ t : Int, k ∈ warnedKeys s t ↔ ((numDates s k : Int) ≤ t) := by
    intro t
    rw [warnedKeys, List.mem_filter]
    constructor
    · rintro ⟨_, hcond⟩
      simpa [outputStudentAttendanceOnly, hstaff, numDates] using hcond
    · intro hle
      refine ⟨hmem, ?_⟩
      simpa [outputStudentAttendanceOnly, hstaff, numDates] using hle
  refine ⟨hiff th, ?_, ?_, ?_⟩
  · intro h2
    rw [hiff 2, h2]
    omega
  · intro h3
    rw [hiff 2, h3]
    omega
  · intro h1
    rw [hiff 0]
    omega

/-- Witness for the warning-threshold theorem: two dates warn at threshold
2, three dates do not, and two dates never warn at the default threshold
0. -/
theorem warning_threshold_witness :
    ("1a@student.gla.ac.uk" ∈ warnedKeys sTwoDates 2) ∧
    ("1a@student.gla.ac.uk" ∉ warnedKeys sThreeDates 2) ∧
    ("1a@student.gla.ac.uk" ∉ warnedKeys sTwoDates 0) :=
  ⟨(warning_threshold sTwoDates "1a@student.gla.ac.uk" 2 (by decide) (by decide)).2.1
      (by decide),
   (warning_threshold sThreeDates "1a@student.gla.ac.uk" 2 (by decide) (by decide)).2.2.1
      (by decide),
   (warning_threshold sTwoDates "1a@student.gla.ac.uk" 0 (by decide) (by decide)).2.2.2
      (by decide)⟩

/-- C5 counterexample: one participant attends ISO week 10 of 2020 (30 min)
and ISO week 10 of 2021 (45 min); the report has a single week-10 column
whose cell holds 75, not the per-(ISO year, week) sums 30 and 45 that the
claim requires. -/
theorem week_pivot_year_merged :
    isoYear ⟨2020, 3, 2⟩ = 2020 ∧ isoWeekNum ⟨2020, 3, 2⟩ = 10 ∧
    isoYear ⟨2021, 3, 8⟩ = 2021 ∧ isoWeekNum ⟨2021, 3, 8⟩ = 10 ∧
    sortedWeekNums sCrossYear = [10] ∧
    table3Body sCrossYear =
      [[Cell.str "A", Cell.str "1a@student.gla.ac.uk", Cell.int 75]] ∧
    (75 : Int) ≠ 30 ∧ (75 : Int) ≠ 45 := by decide

/-- C5 (amended): each week-pivot cell is the sum of cumulative minutes over
the dates of the record whose bare ISO week NUMBER matches the column — the
ISO year is ignored — and, for records with non-negative durations, the
cell is empty exactly when that sum is zero. -/
theorem week_pivot_cell (s : Store) (k : String) (dl : DateList) (w : Nat)
    (hl : lookupA s k = some dl) (hstaff : StaffEmail k = false)
    (_hw : w ∈ sortedWeekNums s) (hnn : ∀ q ∈ dl, 0 ≤ q.2.mins) :
    table3Row s dl k ∈ table3Body s ∧
    weekCell dl w = (if weekSum dl w = 0 then Cell.str "" else Cell.int (weekSum dl w)) := by
  refine ⟨table3Body_mem hstaff hl, ?_⟩
  have hge : 0 ≤ weekSum dl w := by
    rw [weekSum]
    apply List.sum_nonneg
    intro x hx
    obtain ⟨q, hq, hval⟩ := List.mem_map.mp hx
    rw [← hval]
    exact hnn q (List.mem_filter.mp hq).1
  rw [weekCell]
  by_cases h0 : weekSum dl w = 0
  · rw [if_neg (by omega), if_pos h0]
  · rw [if_pos (by omega), if_neg h0]

/-- Witness for the week-pivot cell theorem at week 41 of the two-date
store. -/
theorem week_pivot_cell_witness :
    table3Row sTwoDates dlTwoDates "1a@student.gla.ac.uk" ∈ table3Body sTwoDates ∧
    weekCell dlTwoDates 41 =
      (if weekSum dlTwoDates 41 = 0 then Cell.str ""
       else Cell.int (weekSum dlTwoDates 41)) :=
  week_pivot_cell sTwoDates "1a@student.gla.ac.uk" dlTwoDates 41
    (by decide) (by decide) (by decide) (by decide)

/-- C6 counterexample: the date 2020-10-05 is attended only by the excluded
staff identity demo@glasgow.ac.uk, yet it contributes a column to the
date-pivot header (the only included participant shows an empty cell
there). -/
theorem date_pivot_staff_column :
    StaffEmail "demo@glasgow.ac.uk" = true ∧
    StaffEmail "1a@student.gla.ac.uk" = false ∧
    (∀ row ∈ table2Body sStaffDate, row[1]? ≠ some (Cell.str "demo@glasgow.ac.uk")) ∧
    table2Header sStaffDate =
      [Cell.str "Name", Cell.str "Email", Cell.date ⟨2020, 10, 5⟩,
        Cell.date ⟨2020, 10, 6⟩] ∧
    table2Body sStaffDate =
      [[Cell.str "T", Cell.str "1a@student.gla.ac.uk", Cell.str "", Cell.int 45]] := by
  decide

/-- C6 (amended): the date-pivot columns after Name and Email are exactly
the distinct dates over ALL participants — excluded staff identities
included — in strictly ascending date order. -/
theorem date_pivot_columns (s : Store) :
    table2Header s = Cell.str "Name" :: Cell.str "Email" :: (sortedDates s).map Cell.date ∧
    List.Pairwise (fun a b => dateLtB a b = true) (sortedDates s) ∧
    (∀ x, x ∈ sortedDates s ↔ ∃ k dl, lookupA s k = some dl ∧ x ∈ dl.map (fun q => q.1)) := by
  refine ⟨rfl, ?_, ?_⟩
  · have hle := isortBy_pairwise dateLeB dateLeB_total dateLeB_trans (dateCat s)
    have hnd : (isortBy dateLeB (dateCat s)).Nodup :=
      ((isortBy_perm dateLeB (dateCat s)).nodup_iff).mpr (dateCat_nodup s)
    exact (hle.and hnd).imp (fun h => dateLtB_of_le_ne h.1 h.2)
  · intro x
    rw [sortedDates, mem_isortBy, mem_dateCat]

/-- C9 counterexample: the participant signs in under both the canonical
email and the personal alias on the same date, the canonical email first;
Table 1 then shows the canonical email — identical to the Email column of
Tables 2 and 3 — so the two values do NOT differ for this aliased
participant. -/
theorem report_email_same :
    (∃ q ∈ prsMixed, lookupA mapAlias q.email = some "1a@student.gla.ac.uk") ∧
    table1Body (aggP mapAlias prsMixed) =
      [[Cell.str "Stu", Cell.str "1a@student.gla.ac.uk",
        Cell.str "01/10/2020 09:00:00 AM", Cell.int 50]] ∧
    table2Body (aggP mapAlias prsMixed) =
      [[Cell.str "Stu", Cell.str "1a@student.gla.ac.uk", Cell.int 50]] ∧
    table3Body (aggP mapAlias prsMixed) =
      [[Cell.str "Stu", Cell.str "1a@student.gla.ac.uk", Cell.int 50]] := by decide

/-- C9 (amended): for each (key, date) entry, Table 1 shows the raw
lowercased email of the first row folded in — possibly a personal alias —
while Tables 2 and 3 show the canonical IdentityKey in their Email column;
the two displayed values differ exactly when that first row's email differs
from the key. -/
theorem report_email_columns (m : List (String × String)) (prs : List ParsedRow)
    (k : String) (d : Date) (r : ParsedRow) (rs : List ParsedRow)
    (hstaff : StaffEmail k = false)
    (hfl : prs.filter (matchesKD m k d) = r :: rs) :
    [Cell.str r.name, Cell.str r.email, Cell.str r.start,
        Cell.int (((r :: rs).map (fun q => q.mins)).sum)] ∈ table1Body (aggP m prs) ∧
    (∃ nm cells, (Cell.str nm :: Cell.str k :: cells) ∈ table2Body (aggP m prs)) ∧
    (∃ nm cells, (Cell.str nm :: Cell.str k :: cells) ∈ table3Body (aggP m prs)) ∧
    (Cell.str r.email ≠ Cell.str k ↔ r.email ≠ k) := by
  have he : lookupE (aggP m prs) k d =
      some ⟨r.name, r.email, r.start, ((r :: rs).map (fun q => q.mins)).sum⟩ := by
    rw [lookupE_aggP, hfl]
  rw [lookupE] at he
  rcases hl : lookupA (aggP m prs) k with _ | dl
  · rw [hl] at he; cases he
  · rw [hl] at he
    simp only [Option.some_bind] at he
    refine ⟨?_, ?_, ?_, ?_⟩
    · have hmem := table1Body_mem hstaff (mem_sortKeys_of_lookup hl)
        (table1RowsFor_mem hl he)
      simpa [entryRow] using hmem
    · exact ⟨headName dl, (sortedDates (aggP m prs)).map (dateCell dl),
        table2Body_mem hstaff hl⟩
    · exact ⟨headName dl, (sortedWeekNums (aggP m prs)).map (weekCell dl),
        table3Body_mem hstaff hl⟩
    · constructor
      · intro hne hc
        exact hne (by rw [hc])
      · intro hne hc
        exact hne (Cell.str.inj hc)

/-- Witness for the report-email theorem: a participant whose first and only
emails are the alias, so Table 1 shows a@personal.com while Tables 2 and 3
show the canonical key, and the two differ. -/
theorem report_email_columns_witness :
    [Cell.str "Stu", Cell.str "a@personal.com", Cell.str "01/10/2020 09:00:00 AM",
        Cell.int 50] ∈ table1Body (aggP mapAlias prsAliasOnly) ∧
    (∃ nm cells, (Cell.str nm :: Cell.str "1a@student.gla.ac.uk" :: cells) ∈
        table2Body (aggP mapAlias prsAliasOnly)) ∧
    (∃ nm cells, (Cell.str nm :: Cell.str "1a@student.gla.ac.uk" :: cells) ∈
        table3Body (aggP mapAlias prsAliasOnly)) ∧
    (Cell.str "a@personal.com" ≠ Cell.str "1a@student.gla.ac.uk" ↔
        "a@personal.com" ≠ "1a@student.gla.ac.uk") :=
  report_email_columns mapAlias prsAliasOnly "1a@student.gla.ac.uk" ⟨2020, 10, 1⟩
    ⟨"Stu", "a@personal.com", "01/10/2020 09:00:00 AM", 30, ⟨2020, 10, 1⟩⟩
    [⟨"Stu", "a@personal.com", "01/10/2020 10:00:00 AM", 20, ⟨2020, 10, 1⟩⟩]
    (by decide) (by decide)

/-- C4 counterexample: with the malformed directory first in the run, the
well-formed second directory yields no reports — even though it processes
fine on its own — because the uncaught exception stops the whole run. -/
theorem malformed_row_stops_later_directories :
    (runAll [] 0 [dirBad, dirGood]).1 = [] ∧
    (runAll [] 0 [dirBad, dirGood]).2.isSome = true ∧
    (processDirectory [] 0 dirGood).isOk = true := by decide

/-- C4 (amended): a malformed row (unparseable timestamp or non-integer
duration) aborts the ENTIRE run at that point: the directory containing it
emits no reports, directories already processed keep their reports, and
directories after it are never processed. -/
theorem malformed_row_aborts_run (m : List (String × String)) (th : Int)
    (pre : List DirInput) (dbad : DirInput) (post : List DirInput)
    (f : List (List String)) (row : List String)
    (hf : f ∈ dbad) (hrow : row ∈ f)
    (hhead : isHeaderRow row = false) (hbad : (parseRow row).isOk = false)
    (hpre : ∀ x ∈ pre, (processDirectory m th x).isOk = true) :
    (processDirectory m th dbad).isOk = false ∧
    (runAll m th (pre ++ dbad :: post)).1 =
      pre.filterMap (fun x => (processDirectory m th x).toOption) ∧
    (runAll m th (pre ++ dbad :: post)).2.isSome = true := by
  have hdir : (processDirectory m th dbad).isOk = false :=
    processDirectory_fails m th hf
      (processFile_fails m ⟨row, hrow, hhead, hbad⟩)
  obtain ⟨h1, h2⟩ := runAll_of_failure m th pre dbad post hpre hdir
  exact ⟨hdir, h1, h2⟩

/-- Witness for the run-abort theorem: a good directory, then the malformed
one, then another good one. -/
theorem malformed_row_aborts_run_witness :
    (processDirectory [] 0 dirBad).isOk = false ∧
    (runAll [] 0 ([dirGood] ++ dirBad :: [dirGood])).1 =
      [dirGood].filterMap (fun x => (processDirectory [] 0 x).toOption) ∧
    (runAll [] 0 ([dirGood] ++ dirBad :: [dirGood])).2.isSome = true :=
  malformed_row_aborts_run [] 0 [dirGood] dirBad [dirGood] [headerRow0, rowBad] rowBad
    (by decide) (by decide) (by decide) (by decide) (by decide)

/-- C10: a discovered file with fewer than two rows makes the initial peek
raise an unhandled exception, so a directory containing such a file produces
no reports at all. -/
theorem short_file_aborts_directory (m : List (String × String)) (th : Int)
    (files : DirInput) (f : List (List String)) (hf : f ∈ files)
    (hlen : f.length < 2) :
    (processDirectory m th files).isOk = false :=
  processDirectory_fails m th hf (processFile_short m hlen)

/-- Witness for the short-file theorem: a header-only file. -/
theorem short_file_aborts_directory_witness :
    (processDirectory [] 0 [[headerRow0]]).isOk = false :=
  short_file_aborts_directory [] 0 [[headerRow0]] [headerRow0] (by decide) (by decide)

end AttRep
